/-
Verification of the extraction-classification-scoring pipeline of
marco-pinho/marcolattes (src/app.py) against its specification.

The pipeline is shallowly embedded:
  * the four regex field extractions of `process_all_html_files`
    (src/app.py lines 65-75) become search functions over `List Char`;
  * the per-document loop with its try/except (lines 50-92) becomes a fold
    over a list of pre-parsed document entries, where the outcome of reading
    and parsing one HTML file is an `Except` value (an `Except.error` stands
    for any exception raised while opening, decoding or souping the file);
  * `load_qualis_data` (lines 19-30) becomes `fillna` + first-wins
    deduplication over a list of catalog rows, a missing cell being `none`;
  * `calculate_points` (lines 104-110) becomes a left merge on the ISSN key
    followed by the fillna/replace tier normalization and the points map.
-/
import Mathlib

/-- ASCII letter or digit, the character class `[A-Za-z0-9]` of the ISSN
regex at src/app.py line 65. -/
def isAlnumAscii (c : Char) : Bool := c.isAlpha || c.isDigit

/-- The lookbehind key of the ISSN regex at src/app.py line 65. -/
def issnKey : List Char := ['i', 's', 's', 'n', '=']

/-- The lookbehind key of the DOI regex at src/app.py line 68. -/
def doiKey : List Char := ['d', 'o', 'i', '=']

/-- The lookbehind key of the title regex at src/app.py line 71. -/
def tituloKey : List Char := ['t', 'i', 't', 'u', 'l', 'o', '=']

/-- The lookbehind key of the venue regex at src/app.py line 74. -/
def revistaKey : List Char :=
  ['n', 'o', 'm', 'e', 'P', 'e', 'r', 'i', 'o', 'd', 'i', 'c', 'o', '=']

/-- `beginsWith k l` holds when `k` is an initial segment of `l`. -/
def beginsWith : List Char → List Char → Bool
  | [], _ => true
  | _ :: _, [] => false
  | k :: ks, c :: cs => k == c && beginsWith ks cs

/-- `containsSub key l` holds when `key` occurs as a contiguous substring of
`l`; this is what a lookbehind `(?<=key)` can anchor on. -/
def containsSub (key : List Char) : List Char → Bool
  | [] => beginsWith key []
  | c :: cs => beginsWith key (c :: cs) || containsSub key cs

/-- One attempt of the regex `(?<=issn=)([A-Za-z0-9]{4})([A-Za-z0-9]{4})`
(src/app.py lines 65-66) at the head of `l`: if `l` starts with `issn=`
followed by at least 8 ASCII alphanumeric characters, the two 4-character
groups joined by a hyphen, as in `f"{m.group(1)}-{m.group(2)}"`. -/
def issnHere (l : List Char) : Option String :=
  if beginsWith issnKey l = true ∧ 8 ≤ (l.drop 5).length ∧
      ((l.drop 5).take 8).all isAlnumAscii = true then
    some (String.mk ((l.drop 5).take 4 ++ '-' :: ((l.drop 5).drop 4).take 4))
  else
    none

/-- `re.search` over the string: try `issnHere` at every position, leftmost
match first. -/
def extractIssnAux : List Char → Option String
  | [] => none
  | c :: cs =>
    match issnHere (c :: cs) with
    | some r => some r
    | none => extractIssnAux cs

/-- The journal-identifier extraction of src/app.py lines 65-66: `None`
when the regex does not match anywhere. -/
def extractIssn (s : String) : Option String := extractIssnAux s.toList

/-- One attempt of a regex `(?<=key)[^&]+` at the head of `l`: if `l` starts
with `key`, the maximal nonempty run of non-`&` characters that follows. -/
def valueHere (key l : List Char) : Option (List Char) :=
  if beginsWith key l = true then
    if (l.drop key.length).takeWhile (fun c => !(c == '&')) = [] then none
    else some ((l.drop key.length).takeWhile (fun c => !(c == '&')))
  else
    none

/-- `re.search` for `(?<=key)[^&]+`: try every position, leftmost match
first. -/
def searchKV (key : List Char) : List Char → Option (List Char)
  | [] => none
  | c :: cs =>
    match valueHere key (c :: cs) with
    | some v => some v
    | none => searchKV key cs

/-- The DOI extraction of src/app.py lines 68-69, with its sentinel. -/
def extractDoi (s : String) : String :=
  match searchKV doiKey s.toList with
  | some v => String.mk v
  | none => "N/A"

/-- The title extraction of src/app.py lines 71-72, with its sentinel. -/
def extractTitulo (s : String) : String :=
  match searchKV tituloKey s.toList with
  | some v => String.mk v
  | none => "Título não encontrado"

/-- The venue extraction of src/app.py lines 74-75, with its sentinel. -/
def extractRevista (s : String) : String :=
  match searchKV revistaKey s.toList with
  | some v => String.mk v
  | none => "Revista não encontrada"

/-- The four fields recovered from one `cvuri` encoded metadata string. -/
structure CitationFields where
  issn : Option String
  doi : String
  titulo : String
  revista : String
deriving DecidableEq

/-- The four independent extractions of src/app.py lines 65-75 run over the
same encoded string. -/
def extractFields (cvuri : String) : CitationFields :=
  { issn := extractIssn cvuri
    doi := extractDoi cvuri
    titulo := extractTitulo cvuri
    revista := extractRevista cvuri }

/-- One row appended to `all_articles` at src/app.py lines 80-90. -/
structure Article where
  nome : String
  categoria : String
  issn : Option String
  doi : String
  titulo : String
  revista : String
  ano : Option String
  wos : Nat
  scopus : Nat
deriving DecidableEq

/-- One `.artigo-completo` block of a parsed document: whether the
`span.citacoes, span.citado` marker is present and, if so, its `cvuri`
attribute (absent attribute defaults to `""` via `.get('cvuri', '')`), plus
the text of the year marker when present (src/app.py lines 61-78). -/
structure ArticleBlock where
  cvuri : Option (Option String)
  ano : Option String
deriving DecidableEq

/-- The record built for one article block at src/app.py lines 61-90. -/
def mkArticle (nome categoria : String) (cvuriAttr : Option String)
    (ano : Option String) : Article :=
  { nome := nome
    categoria := categoria
    issn := extractIssn (cvuriAttr.getD "")
    doi := extractDoi (cvuriAttr.getD "")
    titulo := extractTitulo (cvuriAttr.getD "")
    revista := extractRevista (cvuriAttr.getD "")
    ano := ano
    wos := 0
    scopus := 0 }

/-- The inner loop over article blocks (src/app.py lines 60-90): a block
without the citation marker is skipped (`if not cvuri: continue`). -/
def processDoc (nome categoria : String) (blocks : List ArticleBlock) :
    List Article :=
  blocks.filterMap (fun b => b.cvuri.map (fun attr => mkArticle nome categoria attr b.ano))

/-- One enumerated HTML file of the corpus: subject name (file name stem),
category label (folder), and the outcome of reading and parsing it.
`Except.error` stands for any exception raised inside the per-file `try` of
src/app.py lines 51-92 before any block of that file is processed
(unreadable file, undecodable bytes, parser failure). -/
abbrev DocEntry : Type := String × String × Except String (List ArticleBlock)

/-- The corpus scan of `process_all_html_files` (src/app.py lines 50-92):
each file is processed inside a `try`, and `except Exception: pass` drops a
failing file while the loop continues with the next one. -/
def process_all_html_files : List DocEntry → List Article
  | [] => []
  | (_, _, Except.error _) :: rest => process_all_html_files rest
  | (nome, categoria, Except.ok blocks) :: rest =>
    processDoc nome categoria blocks ++ process_all_html_files rest

/-- One row of the Qualis reference table: the `ISSN` column and the
`qualis` column, a missing (NaN) cell being `none`.  The other columns are
dropped or ignored by the pipeline. -/
structure QualisRow where
  issn : Option String
  qualis : Option String
deriving DecidableEq

/-- `qualis_final["qualis"].fillna("C")` (src/app.py line 24): a missing
tier cell becomes the lowest tier `C`. -/
def fillnaC (rows : List QualisRow) : List QualisRow :=
  rows.map (fun r => { issn := r.issn, qualis := some (r.qualis.getD "C") })

/-- `drop_duplicates(subset="ISSN")` with the default `keep='first'`
(src/app.py line 25): a row whose key was already seen is dropped. -/
def dropDupAux (seen : List (Option String)) : List QualisRow → List QualisRow
  | [] => []
  | r :: rest =>
    if r.issn ∈ seen then dropDupAux seen rest
    else r :: dropDupAux (r.issn :: seen) rest

/-- `load_qualis_data` (src/app.py lines 19-30): fill missing tiers with
`C`, then deduplicate on the ISSN key keeping the first occurrence. -/
def load_qualis_data (rows : List QualisRow) : List QualisRow :=
  dropDupAux [] (fillnaC rows)

/-- The `pontos_map` dict of src/app.py line 108. -/
def pontos_map : List (String × Nat) :=
  [("A1", 100), ("A2", 80), ("A3", 60), ("A4", 40), ("B1", 30), ("B2", 20),
   ("B3", 10), ("B4", 5), ("C", 0)]

/-- `.map(pontos_map).fillna(0)` (src/app.py line 109): a tier outside the
dict scores 0. -/
def mapPontos (q : String) : Nat := (pontos_map.lookup q).getD 0

/-- The tier normalization `fillna("C").replace("-", "C")` applied to the
merged `qualis` column (src/app.py line 107).  The argument is the merge
outcome for one row: `none` when the left row had no catalog match (the
merge produced NaN), `some q` when it matched a catalog row whose `qualis`
cell is `q`. -/
def scoreQualis : Option (Option String) → String
  | none => "C"
  | some none => "C"
  | some (some t) => if t = "-" then "C" else t

/-- One row of the merged table returned by `calculate_points`. -/
structure ScoredArticle where
  raw : Article
  qualis : String
  pontos : Nat
deriving DecidableEq

/-- `_df.merge(qualis_df, on="ISSN", how="left")` (src/app.py line 106):
every left row is kept in order; a left row is paired with each catalog row
whose ISSN key equals its own (pandas joins NaN keys to NaN keys), or with
`none` when there is no match. -/
def mergeLeft (cat : List QualisRow) : List Article → List (Article × Option (Option String))
  | [] => []
  | a :: rest =>
    (match cat.filter (fun r => r.issn == a.issn) with
     | [] => [(a, none)]
     | m :: ms => (m :: ms).map (fun r => (a, some r.qualis))) ++ mergeLeft cat rest

/-- `calculate_points` (src/app.py lines 104-110): left merge on ISSN,
normalize the tier, map it to points. -/
def calculate_points (df : List Article) (qualis_df : List QualisRow) :
    List ScoredArticle :=
  (mergeLeft qualis_df df).map (fun p =>
    { raw := p.1
      qualis := scoreQualis p.2
      pontos := mapPontos (scoreQualis p.2) })

/-- The nine fixed Qualis tiers (src/app.py line 257). -/
def nineTiers : List String := ["A1", "A2", "A3", "A4", "B1", "B2", "B3", "B4", "C"]

/-- Specification-side predicate: `l` contains the key `issn=` followed by
two 4-character ASCII alphanumeric groups. -/
def HasIssn8 (l : List Char) : Prop :=
  ∃ pre g1 g2 suf, l = pre ++ (issnKey ++ (g1 ++ (g2 ++ suf))) ∧
    g1.length = 4 ∧ g2.length = 4 ∧ (g1 ++ g2).all isAlnumAscii = true

/-- Specification-side predicate: `key` occurs as a substring of `l`. -/
def HasKey (key l : List Char) : Prop := ∃ pre suf, l = pre ++ (key ++ suf)

theorem beginsWith_iff (k l : List Char) : beginsWith k l = true ↔ ∃ t, l = k ++ t := by
  induction k generalizing l with
  | nil => simp [beginsWith]
  | cons kc ks ih =>
    cases l with
    | nil => simp [beginsWith]
    | cons c cs =>
      simp only [beginsWith, Bool.and_eq_true, beq_iff_eq]
      constructor
      · rintro ⟨rfl, h⟩
        obtain ⟨t, rfl⟩ := (ih cs).1 h
        exact ⟨t, rfl⟩
      · rintro ⟨t, ht⟩
        injection ht with h1 h2
        subst h1
        exact ⟨rfl, (ih cs).2 ⟨t, h2⟩⟩

theorem beginsWith_append (k t : List Char) : beginsWith k (k ++ t) = true :=
  (beginsWith_iff k (k ++ t)).2 ⟨t, rfl⟩

theorem containsSub_iff (key l : List Char) : containsSub key l = true ↔ HasKey key l := by
  induction l with
  | nil =>
    simp only [containsSub, HasKey]
    rw [beginsWith_iff]
    constructor
    · rintro ⟨t, ht⟩
      exact ⟨[], t, ht⟩
    · rintro ⟨pre, suf, h⟩
      have h' := h.symm
      rw [List.append_eq_nil, List.append_eq_nil] at h'
      exact ⟨[], by simp [h'.2.1]⟩
  | cons c cs ih =>
    simp only [containsSub, Bool.or_eq_true]
    rw [beginsWith_iff, ih]
    constructor
    · rintro (⟨t, ht⟩ | ⟨pre, suf, h⟩)
      · exact ⟨[], t, ht⟩
      · exact ⟨c :: pre, suf, by rw [h]; rfl⟩
    · rintro ⟨pre, suf, h⟩
      cases pre with
      | nil => exact Or.inl ⟨suf, by simpa using h⟩
      | cons p ps =>
        injection h with h1 h2
        exact Or.inr ⟨ps, suf, h2⟩

theorem issnKey_append_drop (t : List Char) : (issnKey ++ t).drop 5 = t := rfl

theorem issnHere_eq_some_iff (l : List Char) (r : String) :
    issnHere l = some r ↔
      ∃ g1 g2 suf, l = issnKey ++ (g1 ++ (g2 ++ suf)) ∧ g1.length = 4 ∧ g2.length = 4 ∧
        (g1 ++ g2).all isAlnumAscii = true ∧ r = String.mk (g1 ++ '-' :: g2) := by
  constructor
  · intro h
    by_cases hc : beginsWith issnKey l = true ∧ 8 ≤ (l.drop 5).length ∧
        ((l.drop 5).take 8).all isAlnumAscii = true
    · obtain ⟨hb, hlen, hall⟩ := hc
      unfold issnHere at h
      rw [if_pos ⟨hb, hlen, hall⟩] at h
      obtain ⟨t, rfl⟩ := (beginsWith_iff _ _).1 hb
      rw [issnKey_append_drop] at h hlen hall
      refine ⟨t.take 4, (t.drop 4).take 4, t.drop 8, ?_, ?_, ?_, ?_, ?_⟩
      · congr 1
        conv_lhs => rw [← List.take_append_drop 4 t]
        congr 1
        conv_lhs => rw [← List.take_append_drop 4 (t.drop 4)]
        rw [List.drop_drop]
      · rw [List.length_take]; omega
      · rw [List.length_take, List.length_drop]; omega
      · have ht : t.take 8 = t.take 4 ++ (t.drop 4).take 4 := List.take_add t 4 4
        rw [← ht]; exact hall
      · exact (Option.some.inj h).symm
    · unfold issnHere at h
      rw [if_neg hc] at h
      exact absurd h (by simp)
  · rintro ⟨g1, g2, suf, rfl, h1, h2, h3, rfl⟩
    have hb : beginsWith issnKey (issnKey ++ (g1 ++ (g2 ++ suf))) = true := beginsWith_append _ _
    have hd : (issnKey ++ (g1 ++ (g2 ++ suf))).drop 5 = g1 ++ (g2 ++ suf) :=
      issnKey_append_drop _
    have hlen : 8 ≤ (g1 ++ (g2 ++ suf)).length := by
      simp only [List.length_append, h1, h2]; omega
    have htake8 : (g1 ++ (g2 ++ suf)).take 8 = g1 ++ g2 := by
      rw [show (8 : Nat) = 4 + 4 from rfl, List.take_add]
      rw [List.take_left' h1, List.drop_left' h1, List.take_left' h2]
    unfold issnHere
    rw [if_pos ⟨hb, by rw [hd]; exact hlen, by rw [hd, htake8]; exact h3⟩]
    rw [hd, List.take_left' h1, List.drop_left' h1, List.take_left' h2]

theorem extractIssnAux_eq_of_here (l : List Char) (r : String) (h : issnHere l = some r) :
    extractIssnAux l = some r := by
  cases l with
  | nil =>
    exfalso
    unfold issnHere at h
    rw [if_neg] at h
    · exact absurd h (by simp)
    · intro hc
      exact absurd hc.1 (by decide)
  | cons c cs => simp only [extractIssnAux, h]

theorem extractIssnAux_cons_none (c : Char) (cs : List Char)
    (h : issnHere (c :: cs) = none) : extractIssnAux (c :: cs) = extractIssnAux cs := by
  simp only [extractIssnAux, h]

theorem extractIssnAux_some (l : List Char) (r : String) (h : extractIssnAux l = some r) :
    ∃ pre g1 g2 suf, l = pre ++ (issnKey ++ (g1 ++ (g2 ++ suf))) ∧ g1.length = 4 ∧
      g2.length = 4 ∧ (g1 ++ g2).all isAlnumAscii = true ∧
      r = String.mk (g1 ++ '-' :: g2) := by
  revert h
  induction l with
  | nil => intro h; simp [extractIssnAux] at h
  | cons c cs ih =>
    intro h
    cases hh : issnHere (c :: cs) with
    | some r0 =>
      rw [extractIssnAux_eq_of_here _ _ hh] at h
      obtain rfl : r0 = r := Option.some.inj h
      obtain ⟨g1, g2, suf, hl, h1, h2, h3, hr⟩ := (issnHere_eq_some_iff _ _).1 hh
      exact ⟨[], g1, g2, suf, by simpa using hl, h1, h2, h3, hr⟩
    | none =>
      rw [extractIssnAux_cons_none _ _ hh] at h
      obtain ⟨pre, g1, g2, suf, hl, h1, h2, h3, hr⟩ := ih h
      exact ⟨c :: pre, g1, g2, suf, by rw [hl]; rfl, h1, h2, h3, hr⟩

theorem extractIssnAux_isSome_of (l : List Char) (h : HasIssn8 l) :
    (extractIssnAux l).isSome = true := by
  obtain ⟨pre, g1, g2, suf, hl, h1, h2, h3⟩ := h
  subst hl
  induction pre with
  | nil =>
    rw [List.nil_append]
    rw [extractIssnAux_eq_of_here _ (String.mk (g1 ++ '-' :: g2))
      ((issnHere_eq_some_iff _ _).2 ⟨g1, g2, suf, rfl, h1, h2, h3, rfl⟩)]
    rfl
  | cons p ps ih =>
    rw [List.cons_append]
    cases hh : issnHere (p :: (ps ++ (issnKey ++ (g1 ++ (g2 ++ suf))))) with
    | some r => rw [extractIssnAux_eq_of_here _ _ hh]; rfl
    | none => rw [extractIssnAux_cons_none _ _ hh]; exact ih

theorem valueHere_eq_none (key l : List Char) (h : beginsWith key l = false) :
    valueHere key l = none := by
  unfold valueHere
  rw [if_neg]
  simp [h]

theorem searchKV_eq_none (key l : List Char) (h : ¬ HasKey key l) :
    searchKV key l = none := by
  induction l with
  | nil => rfl
  | cons c cs ih =>
    have hb : beginsWith key (c :: cs) = false := by
      by_contra hb
      rw [Bool.not_eq_false] at hb
      obtain ⟨t, ht⟩ := (beginsWith_iff _ _).1 hb
      exact h ⟨[], t, by simpa using ht⟩
    simp only [searchKV, valueHere_eq_none _ _ hb]
    apply ih
    rintro ⟨pre, suf, hp⟩
    exact h ⟨c :: pre, suf, by rw [hp]; rfl⟩

/-- C1: a string containing `issn=` followed by 8 ASCII alphanumeric
characters yields the two 4-character groups joined by a hyphen; a string
with no such occurrence yields `none` (no error), exactly the regex of
src/app.py lines 65-66. -/
theorem extractIssn_characterization (s : String) :
    ((extractIssn s).isSome = true ↔ HasIssn8 s.toList) ∧
    ∀ r, extractIssn s = some r →
      ∃ pre g1 g2 suf, s.toList = pre ++ (issnKey ++ (g1 ++ (g2 ++ suf))) ∧
        g1.length = 4 ∧ g2.length = 4 ∧ (g1 ++ g2).all isAlnumAscii = true ∧
        r = String.mk (g1 ++ '-' :: g2) := by
  constructor
  · constructor
    · intro h
      obtain ⟨r, hr⟩ := Option.isSome_iff_exists.1 h
      obtain ⟨pre, g1, g2, suf, hl, h1, h2, h3, _⟩ := extractIssnAux_some _ _ hr
      exact ⟨pre, g1, g2, suf, hl, h1, h2, h3⟩
    · exact extractIssnAux_isSome_of _
  · exact fun r hr => extractIssnAux_some _ _ hr

/-- Witness for C1 at the spec's own example `issn=ABCD1234`. -/
theorem extractIssn_characterization_w :
    ∃ pre g1 g2 suf, ("issn=ABCD1234" : String).toList = pre ++ (issnKey ++ (g1 ++ (g2 ++ suf))) ∧
      g1.length = 4 ∧ g2.length = 4 ∧ (g1 ++ g2).all isAlnumAscii = true ∧
      "ABCD-1234" = String.mk (g1 ++ '-' :: g2) :=
  (extractIssn_characterization "issn=ABCD1234").2 "ABCD-1234" (by decide)

/-- C7: a string with no `doi=` occurrence extracts the `N/A` sentinel, and
the full field record is the tuple of the four extractions, each a function
of the input string alone (src/app.py lines 65-75). -/
theorem extractDoi_absent (s : String) (h : ¬ HasKey doiKey s.toList) :
    extractDoi s = "N/A" ∧
      extractFields s =
        { issn := extractIssn s, doi := "N/A", titulo := extractTitulo s,
          revista := extractRevista s } := by
  have hd : extractDoi s = "N/A" := by
    unfold extractDoi
    rw [searchKV_eq_none _ _ h]
  exact ⟨hd, by unfold extractFields; rw [hd]⟩

/-- Witness for C7 at a concrete string with no `doi=` fragment. -/
theorem extractDoi_absent_w :
    extractDoi "issn=ABCD1234&titulo=T&nomePeriodico=P" = "N/A" ∧
      extractFields "issn=ABCD1234&titulo=T&nomePeriodico=P" =
        { issn := extractIssn "issn=ABCD1234&titulo=T&nomePeriodico=P", doi := "N/A",
          titulo := extractTitulo "issn=ABCD1234&titulo=T&nomePeriodico=P",
          revista := extractRevista "issn=ABCD1234&titulo=T&nomePeriodico=P" } :=
  extractDoi_absent _ (fun hk => absurd ((containsSub_iff doiKey _).2 hk) (by decide))

/-- C8 (amended): with no `titulo=` occurrence the title is the fixed
sentinel `Título não encontrado`, and with no `nomePeriodico=` occurrence
the venue is `Revista não encontrada` (src/app.py lines 71-75). -/
theorem extract_sentinels_absent (s t : String) (h1 : ¬ HasKey tituloKey s.toList)
    (h2 : ¬ HasKey revistaKey t.toList) :
    extractTitulo s = "Título não encontrado" ∧
      extractRevista t = "Revista não encontrada" := by
  constructor
  · unfold extractTitulo; rw [searchKV_eq_none _ _ h1]
  · unfold extractRevista; rw [searchKV_eq_none _ _ h2]

/-- Witness for the amended C8 at a concrete string with neither key. -/
theorem extract_sentinels_absent_w :
    extractTitulo "doi=10.1/x" = "Título não encontrado" ∧
      extractRevista "doi=10.1/x" = "Revista não encontrada" :=
  extract_sentinels_absent _ _
    (fun hk => absurd ((containsSub_iff tituloKey _).2 hk) (by decide))
    (fun hk => absurd ((containsSub_iff revistaKey _).2 hk) (by decide))

/-- C8 counterexample: the sentinels of src/app.py lines 72 and 75 are the
Portuguese strings, not the spec's quoted `title not found` and
`venue not found`. -/
theorem extract_sentinels_literal :
    extractTitulo "issn=ABCD1234" = "Título não encontrado" ∧
      ¬ extractTitulo "issn=ABCD1234" = "title not found" ∧
      extractRevista "issn=ABCD1234" = "Revista não encontrada" ∧
      ¬ extractRevista "issn=ABCD1234" = "venue not found" := by decide

/-- C10: the keys are matched as raw substrings, so `eissn=ABCD1234` still
yields a journal identifier, and a `doi=` occurrence inside the `titulo`
value is still matched by the DOI extraction. -/
theorem raw_substring_key_match :
    extractIssn "eissn=ABCD1234" = some "ABCD-1234" ∧
      extractDoi "titulo=Adoi=B&x" = "B" ∧
      extractTitulo "titulo=Adoi=B&x" = "Adoi=B" := by decide

theorem dropDupAux_subset (l : List QualisRow) :
    ∀ (seen : List (Option String)) (r : QualisRow), r ∈ dropDupAux seen l → r ∈ l := by
  induction l with
  | nil => intro seen r h; simp [dropDupAux] at h
  | cons a rest ih =>
    intro seen r h
    by_cases hm : a.issn ∈ seen
    · simp only [dropDupAux, if_pos hm] at h
      exact List.mem_cons_of_mem _ (ih _ _ h)
    · simp only [dropDupAux, if_neg hm] at h
      rcases List.mem_cons.1 h with rfl | h'
      · exact List.mem_cons_self _ _
      · exact List.mem_cons_of_mem _ (ih _ _ h')

theorem dropDupAux_countP (l : List QualisRow) :
    ∀ (seen : List (Option String)) (k : Option String),
      (dropDupAux seen l).countP (fun r => r.issn == k) =
        if k ∈ seen then 0 else min 1 (l.countP (fun r => r.issn == k)) := by
  induction l with
  | nil =>
    intro seen k
    by_cases hk : k ∈ seen <;> simp [dropDupAux, hk]
  | cons a rest ih =>
    intro seen k
    by_cases hm : a.issn ∈ seen
    · simp only [dropDupAux, if_pos hm]
      rw [ih]
      by_cases hk : k ∈ seen
      · rw [if_pos hk, if_pos hk]
      · have hak : (a.issn == k) = false := by
          rw [beq_eq_false_iff_ne]
          intro he
          exact hk (he ▸ hm)
        rw [if_neg hk, if_neg hk, List.countP_cons, hak]
        simp
    · simp only [dropDupAux, if_neg hm, List.countP_cons]
      rw [ih]
      by_cases hak : a.issn = k
      · subst hak
        rw [if_pos (List.mem_cons_self _ _), if_neg hm]
        simp only [beq_self_eq_true, if_true]
        omega
      · have hne : (a.issn == k) = false := by
          rw [beq_eq_false_iff_ne]; exact hak
        have hks : (k ∈ a.issn :: seen) ↔ k ∈ seen := by
          rw [List.mem_cons]
          constructor
          · rintro (rfl | h)
            · exact absurd rfl hak
            · exact h
          · exact Or.inr
        rw [hne]
        by_cases hk : k ∈ seen
        · rw [if_pos (hks.2 hk), if_pos hk]
          simp
        · rw [if_neg (fun h => hk (hks.1 h)), if_neg hk]
          simp

theorem dropDupAux_find (l : List QualisRow) :
    ∀ (seen : List (Option String)) (k : Option String), k ∉ seen →
      (dropDupAux seen l).find? (fun r => r.issn == k) =
        l.find? (fun r => r.issn == k) := by
  induction l with
  | nil => intro seen k _; rfl
  | cons a rest ih =>
    intro seen k hk
    by_cases hm : a.issn ∈ seen
    · have hne : (a.issn == k) = false := by
        rw [beq_eq_false_iff_ne]
        rintro rfl
        exact hk hm
      simp only [dropDupAux, if_pos hm, List.find?_cons, hne]
      exact ih seen k hk
    · simp only [dropDupAux, if_neg hm]
      by_cases hak : a.issn = k
      · subst hak
        simp only [List.find?_cons, beq_self_eq_true]
      · have hne : (a.issn == k) = false := by
          rw [beq_eq_false_iff_ne]; exact hak
        simp only [List.find?_cons, hne]
        apply ih
        rw [List.mem_cons]
        rintro (rfl | h)
        · exact hak rfl
        · exact hk h

theorem fillnaC_map_issn (rows : List QualisRow) :
    (fillnaC rows).map (fun r => r.issn) = rows.map (fun r => r.issn) := by
  simp [fillnaC]

/-- C6: loading a table with duplicate journal identifiers keeps exactly one
row per identifier, the first occurrence in input order (after the tier
fill of line 24), per `drop_duplicates(subset="ISSN")` at src/app.py
line 25. -/
theorem load_qualis_dedup (rows : List QualisRow) (k : Option String)
    (h : k ∈ rows.map (fun r => r.issn)) :
    (load_qualis_data rows).countP (fun r => r.issn == k) = 1 ∧
      (load_qualis_data rows).find? (fun r => r.issn == k) =
        (fillnaC rows).find? (fun r => r.issn == k) := by
  constructor
  · rw [load_qualis_data, dropDupAux_countP]
    rw [if_neg (List.not_mem_nil k)]
    have hpos : 0 < (fillnaC rows).countP (fun r => r.issn == k) := by
      rw [List.countP_pos_iff]
      rw [← fillnaC_map_issn] at h
      obtain ⟨r, hr, hrk⟩ := List.mem_map.1 h
      exact ⟨r, hr, by simp [hrk]⟩
    omega
  · exact dropDupAux_find _ _ _ (List.not_mem_nil k)

/-- Witness for C6 at the spec's example of two rows sharing `AAAA-1111`. -/
theorem load_qualis_dedup_w :
    (load_qualis_data [⟨some "AAAA-1111", some "A1"⟩, ⟨some "AAAA-1111", some "B2"⟩]).countP
        (fun r => r.issn == some "AAAA-1111") = 1 ∧
      (load_qualis_data [⟨some "AAAA-1111", some "A1"⟩, ⟨some "AAAA-1111", some "B2"⟩]).find?
          (fun r => r.issn == some "AAAA-1111") =
        (fillnaC [⟨some "AAAA-1111", some "A1"⟩, ⟨some "AAAA-1111", some "B2"⟩]).find?
          (fun r => r.issn == some "AAAA-1111") :=
  load_qualis_dedup _ _ (by decide)

/-- C5 counterexample: a placeholder `-` tier survives `load_qualis_data`
unchanged, because line 24 only fills missing (NaN) cells; the `-` rewrite
happens later, at scoring time (src/app.py line 107). -/
theorem load_qualis_keeps_dash :
    (load_qualis_data [⟨some "AAAA-1111", some "-"⟩]).map (fun r => r.qualis) =
      [some "-"] := by decide

/-- C5 (amended): loading rewrites every blank (missing) tier to `C`, so
the loaded catalog has no blank tier entry, and every entry comes from the
first input row with its key, its tier filled by `fillna("C")`; placeholder
`-` tiers are left as they are. -/
theorem load_qualis_entries (rows : List QualisRow) (r : QualisRow)
    (h : r ∈ load_qualis_data rows) :
    r.qualis.isSome = true ∧
      ∃ r₀ ∈ rows, r.issn = r₀.issn ∧ r.qualis = some (r₀.qualis.getD "C") := by
  have hmem : r ∈ fillnaC rows := dropDupAux_subset _ _ _ h
  obtain ⟨r₀, hr₀, heq⟩ := List.mem_map.1 hmem
  subst heq
  exact ⟨rfl, r₀, hr₀, rfl, rfl⟩

/-- Witness for the amended C5: a blank tier is rewritten to `C`. -/
theorem load_qualis_entries_w :
    (QualisRow.mk (some "AAAA-1111") (some "C")).qualis.isSome = true ∧
      ∃ r₀ ∈ [QualisRow.mk (some "AAAA-1111") none],
        (QualisRow.mk (some "AAAA-1111") (some "C")).issn = r₀.issn ∧
          (QualisRow.mk (some "AAAA-1111") (some "C")).qualis =
            some (r₀.qualis.getD "C") :=
  load_qualis_entries [QualisRow.mk (some "AAAA-1111") none] _ (by decide)

/-- C9: a document whose read or parse raises is skipped by the
`try/except` of src/app.py lines 51-92: the corpus records are exactly
those of the documents before it followed by those after it, and the scan
never propagates the failure. -/
theorem corpus_skips_failed_doc (pre post : List DocEntry) (nome categoria err : String) :
    process_all_html_files (pre ++ (nome, categoria, Except.error err) :: post) =
      process_all_html_files pre ++ process_all_html_files post := by
  induction pre with
  | nil => rfl
  | cons d rest ih =>
    obtain ⟨n, c, outcome⟩ := d
    cases outcome with
    | error e => simpa [process_all_html_files] using ih
    | ok blocks => simp [process_all_html_files, ih]

theorem lookup_result (l : List (String × Nat)) (q : String) :
    l.lookup q = none ∨ ∃ p ∈ l, l.lookup q = some p.2 := by
  induction l with
  | nil => exact Or.inl rfl
  | cons p rest ih =>
    cases hb : (q == p.1) with
    | true =>
      exact Or.inr ⟨p, List.mem_cons_self _ _, by simp [List.lookup, hb]⟩
    | false =>
      rcases ih with h | ⟨p', hp', h⟩
      · exact Or.inl (by simp [List.lookup, hb, h])
      · exact Or.inr ⟨p', List.mem_cons_of_mem _ hp', by simp [List.lookup, hb, h]⟩

theorem lookup_none_of_not_mem (l : List (String × Nat)) (q : String)
    (h : q ∉ l.map Prod.fst) : l.lookup q = none := by
  induction l with
  | nil => rfl
  | cons p rest ih =>
    simp only [List.map_cons, List.mem_cons] at h
    push_neg at h
    have hb : (q == p.1) = false := by rw [beq_eq_false_iff_ne]; exact h.1
    simp only [List.lookup, hb]
    exact ih h.2

theorem mapPontos_mem (q : String) :
    mapPontos q ∈ [100, 80, 60, 40, 30, 20, 10, 5, 0] := by
  rcases lookup_result pontos_map q with h | ⟨p, hp, h⟩
  · unfold mapPontos
    rw [h]
    decide
  · unfold mapPontos
    rw [h]
    have hall : ∀ x ∈ pontos_map, x.2 ∈ [100, 80, 60, 40, 30, 20, 10, 5, 0] := by decide
    simpa using hall p hp

theorem mergeLeft_mem_snd (cat : List QualisRow) (df : List Article)
    (p : Article × Option (Option String)) (h : p ∈ mergeLeft cat df) :
    p.2 = none ∨ ∃ row ∈ cat, p.2 = some row.qualis := by
  induction df with
  | nil => simp [mergeLeft] at h
  | cons a rest ih =>
    cases hf : cat.filter (fun r => r.issn == a.issn) with
    | nil =>
      simp only [mergeLeft, hf] at h
      rcases List.mem_append.1 h with h1 | h2
      · simp only [List.mem_singleton] at h1
        rw [h1]
        exact Or.inl rfl
      · exact ih h2
    | cons m ms =>
      simp only [mergeLeft, hf] at h
      rcases List.mem_append.1 h with h1 | h2
      · obtain ⟨r, hr, hrp⟩ := List.mem_map.1 h1
        have hrf : r ∈ cat.filter (fun r => r.issn == a.issn) := by rw [hf]; exact hr
        exact Or.inr ⟨r, (List.mem_filter.1 hrf).1, by rw [← hrp]⟩
      · exact ih h2

theorem filter_issn_length_le_one (cat : List QualisRow) (k : Option String)
    (h : (cat.map (fun r => r.issn)).Nodup) :
    (cat.filter (fun r => r.issn == k)).length ≤ 1 := by
  induction cat with
  | nil => simp
  | cons a rest ih =>
    rw [List.map_cons, List.nodup_cons] at h
    obtain ⟨hna, hnd⟩ := h
    by_cases hak : a.issn = k
    · subst hak
      rw [List.filter_cons_of_pos (by simp)]
      have hnil : rest.filter (fun r => r.issn == a.issn) = [] := by
        rw [List.filter_eq_nil_iff]
        intro r hr
        simp only [beq_iff_eq]
        intro hb
        exact hna (hb ▸ List.mem_map_of_mem _ hr)
      rw [hnil]
      simp
    · rw [List.filter_cons_of_neg (by simp [hak])]
      exact ih hnd

theorem mergeLeft_fst (cat : List QualisRow) (df : List Article)
    (h : (cat.map (fun r => r.issn)).Nodup) :
    (mergeLeft cat df).map Prod.fst = df := by
  induction df with
  | nil => rfl
  | cons a rest ih =>
    cases hf : cat.filter (fun r => r.issn == a.issn) with
    | nil => simp [mergeLeft, hf, ih]
    | cons m ms =>
      have hlen : (cat.filter (fun r => r.issn == a.issn)).length ≤ 1 :=
        filter_issn_length_le_one cat a.issn h
      rw [hf] at hlen
      simp only [List.length_cons] at hlen
      have hms : ms = [] := List.length_eq_zero.1 (by omega)
      subst hms
      simp [mergeLeft, hf, ih]

/-- Sample raw record used by the concrete witnesses below. -/
def artSample : Article :=
  { nome := "A", categoria := "Permanente", issn := some "ABCD-1234", doi := "N/A",
    titulo := "T", revista := "P", ano := some "2023", wos := 0, scopus := 0 }

/-- Sample catalog row used by the concrete witnesses below. -/
def rowSample : QualisRow := { issn := some "ABCD-1234", qualis := some "A2" }

/-- C2: every scored record carries `pontos = pontos_map[qualis]` with
unmapped tiers scored 0, so every score is one of the nine table values
(src/app.py lines 108-109). -/
theorem calculate_points_scores (df : List Article) (qualis_df : List QualisRow)
    (r : ScoredArticle) (h : r ∈ calculate_points df qualis_df) :
    r.pontos = mapPontos r.qualis ∧
      (r.qualis ∉ pontos_map.map Prod.fst → r.pontos = 0) ∧
      r.pontos ∈ [100, 80, 60, 40, 30, 20, 10, 5, 0] := by
  obtain ⟨p, _, hp⟩ := List.mem_map.1 h
  subst hp
  refine ⟨rfl, ?_, mapPontos_mem _⟩
  intro hq
  have hq' : scoreQualis p.2 ∉ pontos_map.map Prod.fst := hq
  show mapPontos (scoreQualis p.2) = 0
  unfold mapPontos
  rw [lookup_none_of_not_mem _ _ hq']
  rfl

/-- Witness for C2 on a one-record, one-row instance. -/
theorem calculate_points_scores_w :
    (ScoredArticle.mk artSample "A2" 80).pontos =
        mapPontos (ScoredArticle.mk artSample "A2" 80).qualis ∧
      ((ScoredArticle.mk artSample "A2" 80).qualis ∉ pontos_map.map Prod.fst →
        (ScoredArticle.mk artSample "A2" 80).pontos = 0) ∧
      (ScoredArticle.mk artSample "A2" 80).pontos ∈ [100, 80, 60, 40, 30, 20, 10, 5, 0] :=
  calculate_points_scores [artSample] [rowSample] _ (by decide)

/-- C3: with a unique-keyed catalog, the left merge of src/app.py line 106
keeps exactly the raw records, one scored row per raw row, in order. -/
theorem calculate_points_left_join (df : List Article) (qualis_df : List QualisRow)
    (h : (qualis_df.map (fun r => r.issn)).Nodup) :
    (calculate_points df qualis_df).map (fun r => r.raw) = df := by
  unfold calculate_points
  rw [List.map_map]
  have hcomp : ((fun r : ScoredArticle => r.raw) ∘
      (fun p : Article × Option (Option String) =>
        { raw := p.1, qualis := scoreQualis p.2,
          pontos := mapPontos (scoreQualis p.2) : ScoredArticle })) = Prod.fst := by
    funext p
    rfl
  rw [hcomp]
  exact mergeLeft_fst _ _ h

/-- Witness for C3 on a one-record, one-row instance. -/
theorem calculate_points_left_join_w :
    (calculate_points [artSample] [rowSample]).map (fun r => r.raw) = [artSample] :=
  calculate_points_left_join _ _ (by decide)

/-- C4 counterexample: a catalog tier outside the fixed vocabulary (here
`D`) flows through scoring unchanged, so for that catalog content the
scored tier is not one of the nine fixed tiers. -/
theorem scored_tier_outside_nine :
    (calculate_points [artSample] [⟨some "ABCD-1234", some "D"⟩]).map (fun r => r.qualis) =
        ["D"] ∧
      ¬ "D" ∈ nineTiers := by decide

/-- Helper for the amended C4: the tier normalization of src/app.py
line 107 never produces the placeholder dash, whatever the merge outcome:
unmatched and blank cells become `C`, a dash cell becomes `C`, and any
other cell value is itself not the dash. -/
theorem scoreQualis_ne_dash (q : Option (Option String)) : ¬ scoreQualis q = "-" := by
  rcases q with - | (- | t)
  · decide
  · decide
  · by_cases ht : t = "-"
    · subst ht
      simp [scoreQualis]
    · simp only [scoreQualis, if_neg ht]
      exact ht

/-- C4 (amended): after scoring the tier is never the placeholder `-` and
never missing, for every raw-record sequence and every catalog content;
and whenever every catalog tier cell is blank, `-`, or one of the nine
fixed tiers, every scored tier is one of the nine fixed tiers
(src/app.py line 107). -/
theorem scored_tier_in_nine (df : List Article) (qualis_df : List QualisRow)
    (r : ScoredArticle) (h : r ∈ calculate_points df qualis_df) :
    ¬ r.qualis = "-" ∧
      ((∀ row ∈ qualis_df, ∀ t, row.qualis = some t → t = "-" ∨ t ∈ nineTiers) →
        r.qualis ∈ nineTiers) := by
  obtain ⟨p, hpm, hp⟩ := List.mem_map.1 h
  subst hp
  refine ⟨scoreQualis_ne_dash p.2, ?_⟩
  intro hcat
  show scoreQualis p.2 ∈ nineTiers
  have hq : scoreQualis p.2 = "C" ∨
      ∃ t, p.2 = some (some t) ∧ ¬ t = "-" ∧ scoreQualis p.2 = t := by
    rcases hp2 : p.2 with - | (- | t)
    · exact Or.inl rfl
    · exact Or.inl rfl
    · by_cases ht : t = "-"
      · subst ht
        exact Or.inl (by simp [scoreQualis])
      · exact Or.inr ⟨t, rfl, ht, by simp [scoreQualis, ht]⟩
  rcases hq with hC | ⟨t, hp2, ht, hval⟩
  · rw [hC]
    decide
  · rw [hval]
    rcases mergeLeft_mem_snd _ _ _ hpm with h2 | ⟨row, hrow, h2⟩
    · rw [h2] at hp2
      exact absurd hp2 (by simp)
    · rw [h2] at hp2
      have hrq : row.qualis = some t := Option.some.inj hp2
      rcases hcat row hrow t hrq with hdash | hmem
      · exact absurd hdash ht
      · exact hmem

/-- Witness for the amended C4 on a one-record, one-row instance: the
membership hypothesis is discharged by computation, the no-dash part is
unconditional, and the vocabulary premise of the nine-tiers part is
discharged for the concrete one-row catalog. -/
theorem scored_tier_in_nine_w :
    ¬ (ScoredArticle.mk artSample "A2" 80).qualis = "-" ∧
      (ScoredArticle.mk artSample "A2" 80).qualis ∈ nineTiers := by
  have h := scored_tier_in_nine [artSample] [rowSample]
    (ScoredArticle.mk artSample "A2" 80) (by decide)
  refine ⟨h.1, h.2 ?_⟩
  intro row hrow t ht
  rw [List.mem_singleton] at hrow
  subst hrow
  have ht' : some "A2" = some t := ht
  obtain rfl := Option.some.inj ht'
  exact Or.inr (by decide)
